import Mathlib

/-!
Verification of the protobuf-subset codec in
`custom_components/eufy_clean/api/proto_utils.py` and of the adaptive map
parser in `custom_components/eufy_clean/camera.py`.

Bytes are modelled as `List Nat` (each entry 0–255 in real data; the
definitions are total on all of `Nat`, mirroring Python's clamping slice
semantics).  Python's `base64.b64decode` failure is modelled by an
`Option (List Nat)` input to each domain decoder (`none` = the exception
path).  Python loops that advance a position are translated with an explicit
fuel argument; each loop advances its position by at least one byte per
iteration (proved below as `decodeProtobufField_pos_lt`), so fuel equal to
the buffer length always suffices, and running out of fuel returns the same
accumulator that the natural loop exit returns.
-/

/-- One step of `decode_varint`'s while loop (proto_utils.py lines 39–50),
operating on the suffix of the buffer that starts at the current position
and returning the accumulated value together with the number of bytes
consumed. -/
def varintLoop : List Nat → Nat → Nat → Nat × Nat
  | [], result, _ => (result, 0)
  | b :: rest, result, shift =>
    let result := result ||| ((b &&& 0x7F) <<< shift)
    if b &&& 0x80 = 0 then (result, 1)
    else
      let (v, c) := varintLoop rest result (shift + 7)
      (v, c + 1)

/-- `decode_varint(data, pos)` (proto_utils.py lines 39–50): reads 7-bit
groups while the 0x80 continuation bit is set, stopping at the first byte
without it or at buffer exhaustion, and returns `(value, new_position)`. -/
def decodeVarint (data : List Nat) (pos : Nat) : Nat × Nat :=
  let (v, c) := varintLoop (data.drop pos) 0 0
  (v, pos + c)

/-- The loop of `encode_varint` with an explicit fuel bound (the value
strictly shrinks by a factor of 128 each iteration, so fuel equal to the
value itself always suffices; see `encodeVarint_unfold`). -/
def encodeVarintAux : Nat → Nat → List Nat
  | 0, value => [value]
  | fuel + 1, value =>
    if value > 127 then ((value &&& 0x7F) ||| 0x80) :: encodeVarintAux fuel (value >>> 7)
    else [value]

/-- `encode_varint(value)` (proto_utils.py lines 286–293): emits
`(value & 0x7F) | 0x80` and shifts right by 7 while the value exceeds 127,
then emits the final byte without the continuation bit. -/
def encodeVarint (value : Nat) : List Nat :=
  encodeVarintAux value value

/-- A Python value produced or consumed by the field codec: an `int`, a
`bytes` object, or a `str`. -/
inductive PVal where
  | int (n : Nat)
  | bytes (bs : List Nat)
  | str (s : String)
deriving DecidableEq

/-- `int.from_bytes(bs, "little")`. -/
def fromBytesLE : List Nat → Nat
  | [] => 0
  | b :: rest => b + 256 * fromBytesLE rest

/-- The quadruple returned by `decode_protobuf_field`: `None` components are
modelled by `Option`. -/
structure DecodedField where
  fieldNum : Option Nat
  wireType : Option Nat
  value : Option PVal
  nextPos : Nat
deriving DecidableEq

/-- `decode_protobuf_field(data, pos)` (proto_utils.py lines 53–80): returns
`(None, None, None, pos)` at end of buffer; otherwise reads the tag varint,
splits it into `field_number = tag >> 3` and `wire_type = tag & 0x07`, and
dispatches on the wire type (0 varint, 1 fixed64, 2 length-delimited,
5 fixed32; anything else leaves the value `None` and the position right
after the tag).  Python's clamping slices `data[pos:pos+k]` become
`(data.drop pos).take k`. -/
def decodeProtobufField (data : List Nat) (pos : Nat) : DecodedField :=
  if data.length ≤ pos then ⟨none, none, none, pos⟩ else
  let (tag, pos1) := decodeVarint data pos
  let fieldNumber := tag >>> 3
  let wireType := tag &&& 0x07
  if wireType = 0 then
    let (v, pos2) := decodeVarint data pos1
    ⟨some fieldNumber, some wireType, some (.int v), pos2⟩
  else if wireType = 1 then
    ⟨some fieldNumber, some wireType, some (.int (fromBytesLE ((data.drop pos1).take 8))), pos1 + 8⟩
  else if wireType = 2 then
    let (len, pos2) := decodeVarint data pos1
    ⟨some fieldNumber, some wireType, some (.bytes ((data.drop pos2).take len)), pos2 + len⟩
  else if wireType = 5 then
    ⟨some fieldNumber, some wireType, some (.int (fromBytesLE ((data.drop pos1).take 4))), pos1 + 4⟩
  else ⟨some fieldNumber, some wireType, none, pos1⟩

/-- UTF-8 encoding of one Unicode code point, as Python's `str.encode("utf-8")`
produces it. -/
def utf8EncodeCodePoint (c : Nat) : List Nat :=
  if c < 0x80 then [c]
  else if c < 0x800 then [0xC0 ||| (c >>> 6), 0x80 ||| (c &&& 0x3F)]
  else if c < 0x10000 then
    [0xE0 ||| (c >>> 12), 0x80 ||| ((c >>> 6) &&& 0x3F), 0x80 ||| (c &&& 0x3F)]
  else
    [0xF0 ||| (c >>> 18), 0x80 ||| ((c >>> 12) &&& 0x3F),
     0x80 ||| ((c >>> 6) &&& 0x3F), 0x80 ||| (c &&& 0x3F)]

/-- Python's `value.encode("utf-8")` for a `str`. -/
def pyUtf8Encode (s : String) : List Nat :=
  s.data.flatMap fun ch => utf8EncodeCodePoint ch.toNat

/-- `encode_protobuf_field(field_number, wire_type, value)` (proto_utils.py
lines 296–315): tag varint, then for wire type 0 the value varint, for wire
type 2 a length varint followed by the raw bytes (strings are UTF-8-encoded
first, any other value type emits nothing after the tag, mirroring the
`isinstance` checks).  `none` models the `TypeError` Python raises when a
non-`int` reaches `encode_varint` in the wire-type-0 branch. -/
def encodeProtobufField (fieldNumber wireType : Nat) (value : PVal) : Option (List Nat) :=
  let tag := (fieldNumber <<< 3) ||| wireType
  let result := encodeVarint tag
  if wireType = 0 then
    match value with
    | .int n => some (result ++ encodeVarint n)
    | _ => none
  else if wireType = 2 then
    match value with
    | .bytes bs => some (result ++ encodeVarint bs.length ++ bs)
    | .str s =>
      let bs := pyUtf8Encode s
      some (result ++ encodeVarint bs.length ++ bs)
    | _ => some result
  else some result

/-! ### Bitwise bridge lemmas -/

theorem nat_and_127 (n : Nat) : n &&& 127 = n % 128 := by
  have h := Nat.and_pow_two_sub_one_eq_mod n 7
  norm_num at h
  exact h

theorem nat_and_7 (n : Nat) : n &&& 7 = n % 8 := by
  have h := Nat.and_pow_two_sub_one_eq_mod n 3
  norm_num at h
  exact h

theorem nat_shiftRight_7 (n : Nat) : n >>> 7 = n / 128 := by
  have h := Nat.shiftRight_eq_div_pow n 7
  norm_num at h
  exact h

theorem nat_shiftRight_3 (n : Nat) : n >>> 3 = n / 8 := by
  have h := Nat.shiftRight_eq_div_pow n 3
  norm_num at h
  exact h

theorem encodeVarintAux_fuel : ∀ (fuel₁ : Nat) (fuel₂ value : Nat), value ≤ fuel₁ →
    value ≤ fuel₂ → encodeVarintAux fuel₁ value = encodeVarintAux fuel₂ value := by
  intro fuel₁
  induction fuel₁ using Nat.strong_induction_on with
  | _ fuel₁ ih =>
    intro fuel₂ value h1 h2
    match fuel₁, fuel₂ with
    | 0, 0 => rfl
    | 0, f₂ + 1 =>
      have hv : value = 0 := by omega
      subst hv
      simp [encodeVarintAux]
    | f₁ + 1, 0 =>
      have hv : value = 0 := by omega
      subst hv
      simp [encodeVarintAux]
    | f₁ + 1, f₂ + 1 =>
      rw [encodeVarintAux, encodeVarintAux]
      by_cases h : value > 127
      · rw [if_pos h, if_pos h]
        have hdiv : value >>> 7 = value / 128 := nat_shiftRight_7 value
        have hle : value >>> 7 ≤ f₁ := by rw [hdiv]; omega
        have hle2 : value >>> 7 ≤ f₂ := by rw [hdiv]; omega
        rw [ih f₁ (by omega) f₂ (value >>> 7) hle hle2]
      · rw [if_neg h, if_neg h]

/-- `encodeVarint` satisfies the recursion of the Python while loop. -/
theorem encodeVarint_unfold (value : Nat) :
    encodeVarint value =
      if value > 127 then ((value &&& 0x7F) ||| 0x80) :: encodeVarint (value >>> 7)
      else [value] := by
  rw [encodeVarint]
  match value, h : value with
  | _, 0 => simp [encodeVarintAux]
  | _, v + 1 =>
    rw [encodeVarintAux]
    by_cases hgt : v + 1 > 127
    · rw [if_pos hgt, if_pos hgt, encodeVarint]
      have hdiv : (v + 1) >>> 7 = (v + 1) / 128 := nat_shiftRight_7 (v + 1)
      rw [encodeVarintAux_fuel v ((v + 1) >>> 7) ((v + 1) >>> 7) (by rw [hdiv]; omega) le_rfl]
    · rw [if_neg hgt, if_neg hgt]

/-- Oring a small number into the cleared low bits of a shifted number is
addition. -/
theorem lor_shiftLeft_eq_add (a b s : Nat) (h : a < 2 ^ s) :
    a ||| (b <<< s) = a + b * 2 ^ s := by
  apply Nat.eq_of_testBit_eq
  intro i
  rw [Nat.testBit_lor, Nat.testBit_shiftLeft]
  rcases lt_or_ge i s with hi | hi
  · have h1 : decide (i ≥ s) = false := by simp; omega
    rw [h1]
    simp only [Bool.false_and, Bool.or_false]
    have h2 : (a + b * 2 ^ s).testBit i = a.testBit i := by
      have e1 := Nat.testBit_mod_two_pow (a + b * 2 ^ s) s i
      rw [Nat.add_mul_mod_self_right, Nat.mod_eq_of_lt h] at e1
      simp only [hi, decide_true_eq_true, decide_eq_true_eq, Bool.true_and] at e1
      · exact e1.symm
    rw [h2]
  · have h1 : decide (i ≥ s) = true := by simp; omega
    rw [h1]
    have ha : a.testBit i = false :=
      Nat.testBit_eq_false_of_lt (lt_of_lt_of_le h (Nat.pow_le_pow_right (by norm_num) hi))
    rw [ha]
    simp only [Bool.false_or, Bool.true_and]
    have h2 : (a + b * 2 ^ s).testBit i = b.testBit (i - s) := by
      rcases Nat.exists_eq_add_of_le hi with ⟨j, rfl⟩
      have hdiv : (a + b * 2 ^ s) / 2 ^ (s + j) = b / 2 ^ j := by
        rw [pow_add, ← Nat.div_div_eq_div_mul, Nat.add_mul_div_right a b (Nat.pos_pow_of_pos s (by norm_num)), Nat.div_eq_of_lt h, Nat.zero_add]
      rw [Nat.testBit_to_div_mod, Nat.testBit_to_div_mod, hdiv, Nat.add_sub_cancel_left]
    rw [h2]

theorem encodeVarint_ne_nil (n : Nat) : encodeVarint n ≠ [] := by
  rw [encodeVarint_unfold]
  split <;> simp

/-! ### Varint round-trip -/

theorem varintLoop_encode (n : Nat) : ∀ (acc shift : Nat) (rest : List Nat),
    acc < 2 ^ shift →
    varintLoop (encodeVarint n ++ rest) acc shift =
      (acc + n * 2 ^ shift, (encodeVarint n).length) := by
  induction n using Nat.strong_induction_on with
  | _ n ih =>
    intro acc shift rest hacc
    rw [encodeVarint_unfold]
    by_cases h : n > 127
    · simp only [if_pos h, List.cons_append, varintLoop]
      have hb127 : ∀ a < 128, ((a ||| 128) &&& 127) = a := by decide
      have hb128 : ∀ a < 128, ((a ||| 128) &&& 128) = 128 := by decide
      have hlt : n &&& 127 < 128 := by rw [nat_and_127]; omega
      rw [hb127 _ hlt, hb128 _ hlt]
      simp only [OfNat.ofNat_ne_zero, if_false, reduceCtorEq]
      have hacc2 : acc ||| ((n &&& 127) <<< shift) = acc + (n % 128) * 2 ^ shift := by
        rw [nat_and_127] at hlt ⊢
        exact lor_shiftLeft_eq_add acc (n % 128) shift hacc
      have hacc2' : acc + n % 128 * 2 ^ shift < 2 ^ (shift + 7) := by
        have h128 : n % 128 < 128 := Nat.mod_lt n (by norm_num)
        have : 2 ^ (shift + 7) = 2 ^ shift * 128 := by rw [pow_add]; norm_num
        rw [this]
        nlinarith [hacc, h128, Nat.pos_pow_of_pos shift (show 0 < 2 by norm_num)]
      have hrec := ih (n >>> 7)
        (by rw [nat_shiftRight_7]; exact Nat.div_lt_self (by omega) (by norm_num))
        (acc ||| ((n &&& 127) <<< shift)) (shift + 7) rest (by rw [hacc2]; exact hacc2')
      rw [hrec]
      have hval : (acc ||| (n &&& 127) <<< shift) + n >>> 7 * 2 ^ (shift + 7) = acc + n * 2 ^ shift := by
        rw [hacc2, nat_shiftRight_7]
        have : 2 ^ (shift + 7) = 2 ^ shift * 128 := by rw [pow_add]; norm_num
        rw [this]
        have hmd := Nat.mod_add_div n 128
        nlinarith [hmd]
      rw [hval]
      simp [List.length_cons]
    · simp only [if_neg h, List.cons_append, List.nil_append, varintLoop]
      push_neg at h
      have h127 : n &&& 127 = n := by rw [nat_and_127]; omega
      have h128 : n &&& 128 = 0 := by
        have : ∀ a < 128, a &&& 128 = 0 := by decide
        exact this n (by omega)
      rw [h127, h128, if_pos rfl]
      rw [lor_shiftLeft_eq_add acc n shift hacc]
      simp

theorem decodeVarint_encode (n : Nat) (rest : List Nat) :
    decodeVarint (encodeVarint n ++ rest) 0 = (n, (encodeVarint n).length) := by
  rw [decodeVarint]
  rw [List.drop_zero]
  rw [varintLoop_encode n 0 0 rest (by norm_num)]
  simp

/-- C1: varint round-trip: for every non-negative integer n (in particular
all n up to 2^35), decoding the byte string produced by `encode_varint(n)`
from position 0 yields exactly `(n, len(encode_varint(n)))`. -/
theorem c1_varint_roundtrip (n : Nat) :
    decodeVarint (encodeVarint n) 0 = (n, (encodeVarint n).length) := by
  have h := decodeVarint_encode n []
  rwa [List.append_nil] at h

/-! ### Position progress -/

theorem varintLoop_snd_pos (bs : List Nat) (acc shift : Nat) (h : bs ≠ []) :
    1 ≤ (varintLoop bs acc shift).2 := by
  match bs with
  | [] => exact absurd rfl h
  | b :: rest =>
    rw [varintLoop]
    split
    · simp
    · rcases hv : varintLoop rest (acc ||| ((b &&& 127) <<< shift)) (shift + 7) with ⟨v, c⟩
      simp [hv]

theorem decodeVarint_snd_le (data : List Nat) (pos : Nat) :
    pos ≤ (decodeVarint data pos).2 := by
  rcases hv : varintLoop (data.drop pos) 0 0 with ⟨v, c⟩
  simp [decodeVarint, hv]

theorem decodeVarint_pos_lt (data : List Nat) (pos : Nat) (h : pos < data.length) :
    pos < (decodeVarint data pos).2 := by
  have hne : data.drop pos ≠ [] := by
    intro hnil
    have := List.drop_eq_nil_iff.mp hnil
    omega
  have h1 := varintLoop_snd_pos (data.drop pos) 0 0 hne
  rcases hv : varintLoop (data.drop pos) 0 0 with ⟨v, c⟩
  rw [hv] at h1
  simp only [decodeVarint, hv]
  omega

theorem decodeProtobufField_pos_lt (data : List Nat) (pos : Nat) (h : pos < data.length) :
    pos < (decodeProtobufField data pos).nextPos := by
  rw [decodeProtobufField]
  rw [if_neg (by omega)]
  rcases hdv : decodeVarint data pos with ⟨tag, pos1⟩
  have h1 : pos < pos1 := by
    have := decodeVarint_pos_lt data pos h
    rw [hdv] at this
    exact this
  have h2 : pos1 ≤ (decodeVarint data pos1).2 := decodeVarint_snd_le data pos1
  rcases hdv2 : decodeVarint data pos1 with ⟨v2, pos2⟩
  rw [hdv2] at h2
  simp only [hdv, hdv2]
  split_ifs <;> simp <;> omega

/-! ### Tag arithmetic and field round-trip -/

theorem tag_split (fn wt : Nat) (h : wt < 8) : (fn <<< 3) ||| wt = fn * 8 + wt := by
  rw [Nat.lor_comm, lor_shiftLeft_eq_add wt fn 3 (by norm_num; omega)]
  norm_num
  omega

theorem tag_shiftRight (fn wt : Nat) (h : wt < 8) : (fn * 8 + wt) >>> 3 = fn := by
  rw [nat_shiftRight_3]
  omega

theorem tag_and (fn wt : Nat) (h : wt < 8) : (fn * 8 + wt) &&& 7 = wt := by
  rw [nat_and_7]
  omega

theorem decodeVarint_at (A : List Nat) (n : Nat) (rest : List Nat) :
    decodeVarint (A ++ (encodeVarint n ++ rest)) A.length =
      (n, A.length + (encodeVarint n).length) := by
  rw [decodeVarint, List.drop_left]
  rw [varintLoop_encode n 0 0 rest (by norm_num)]
  simp

theorem decodeProtobufField_enc_wt0 (fn n : Nat) :
    decodeProtobufField (encodeVarint ((fn <<< 3) ||| 0) ++ encodeVarint n) 0 =
      ⟨some fn, some 0, some (.int n),
        (encodeVarint ((fn <<< 3) ||| 0) ++ encodeVarint n).length⟩ := by
  have hT : (fn <<< 3) ||| 0 = fn * 8 + 0 := tag_split fn 0 (by norm_num)
  have hne : encodeVarint ((fn <<< 3) ||| 0) ≠ [] := encodeVarint_ne_nil _
  have hlen : 0 < (encodeVarint ((fn <<< 3) ||| 0) ++ encodeVarint n).length := by
    rw [List.length_append]
    have := List.length_pos_of_ne_nil hne
    omega
  have hw : ((fn <<< 3) ||| 0) &&& 7 = 0 := by rw [hT]; exact tag_and fn 0 (by norm_num)
  have hf : ((fn <<< 3) ||| 0) >>> 3 = fn := by rw [hT]; exact tag_shiftRight fn 0 (by norm_num)
  rw [decodeProtobufField, if_neg (by omega)]
  have hdv : decodeVarint (encodeVarint ((fn <<< 3) ||| 0) ++ encodeVarint n) 0 =
      ((fn <<< 3) ||| 0, (encodeVarint ((fn <<< 3) ||| 0)).length) :=
    decodeVarint_encode ((fn <<< 3) ||| 0) (encodeVarint n)
  rw [hdv]
  have hdv2 : decodeVarint (encodeVarint ((fn <<< 3) ||| 0) ++ encodeVarint n)
      (encodeVarint ((fn <<< 3) ||| 0)).length =
      (n, (encodeVarint ((fn <<< 3) ||| 0)).length + (encodeVarint n).length) := by
    have h := decodeVarint_at (encodeVarint ((fn <<< 3) ||| 0)) n []
    rwa [List.append_nil] at h
  simp only [hw, if_pos rfl]
  rw [hdv2, hf]
  simp [List.length_append]

theorem decodeProtobufField_enc_wt2 (fn : Nat) (bs : List Nat) :
    decodeProtobufField (encodeVarint ((fn <<< 3) ||| 2) ++ encodeVarint bs.length ++ bs) 0 =
      ⟨some fn, some 2, some (.bytes bs),
        (encodeVarint ((fn <<< 3) ||| 2) ++ encodeVarint bs.length ++ bs).length⟩ := by
  have hT : (fn <<< 3) ||| 2 = fn * 8 + 2 := tag_split fn 2 (by norm_num)
  have hne : encodeVarint ((fn <<< 3) ||| 2) ≠ [] := encodeVarint_ne_nil _
  have hlen : 0 < (encodeVarint ((fn <<< 3) ||| 2) ++ encodeVarint bs.length ++ bs).length := by
    rw [List.length_append, List.length_append]
    have := List.length_pos_of_ne_nil hne
    omega
  rw [decodeProtobufField, if_neg (by omega)]
  have hdv : decodeVarint (encodeVarint ((fn <<< 3) ||| 2) ++ encodeVarint bs.length ++ bs) 0 =
      ((fn <<< 3) ||| 2, (encodeVarint ((fn <<< 3) ||| 2)).length) := by
    have h := decodeVarint_encode ((fn <<< 3) ||| 2) (encodeVarint bs.length ++ bs)
    rwa [← List.append_assoc] at h
  have hw : ((fn <<< 3) ||| 2) &&& 7 = 2 := by rw [hT]; exact tag_and fn 2 (by norm_num)
  have hf : ((fn <<< 3) ||| 2) >>> 3 = fn := by rw [hT]; exact tag_shiftRight fn 2 (by norm_num)
  rw [hdv]
  have hdv2 : decodeVarint (encodeVarint ((fn <<< 3) ||| 2) ++ encodeVarint bs.length ++ bs)
      (encodeVarint ((fn <<< 3) ||| 2)).length =
      (bs.length, (encodeVarint ((fn <<< 3) ||| 2)).length + (encodeVarint bs.length).length) := by
    have h := decodeVarint_at (encodeVarint ((fn <<< 3) ||| 2)) bs.length bs
    rwa [← List.append_assoc] at h
  simp only [hw, if_neg (show (2 : Nat) ≠ 0 by norm_num), if_neg (show (2 : Nat) ≠ 1 by norm_num), if_pos rfl]
  rw [hdv2, hf]
  have hdrop : (encodeVarint ((fn <<< 3) ||| 2) ++ encodeVarint bs.length ++ bs).drop
      ((encodeVarint ((fn <<< 3) ||| 2)).length + (encodeVarint bs.length).length) = bs := by
    have h := List.drop_left (encodeVarint ((fn <<< 3) ||| 2) ++ encodeVarint bs.length) bs
    rwa [List.length_append] at h
  rw [hdrop, List.take_length]
  simp only [if_true, List.length_append, DecodedField.mk.injEq]

/-- C2 counterexample: for a multi-byte UTF-8 string value on wire type 2,
decoding the bytes produced by `encode_protobuf_field(1, 2, "é")` does not
return the string value itself: the decoded value slot holds the raw UTF-8
bytes `b"\xc3\xa9"`, not the `str`. -/
theorem c2_field_roundtrip_counterexample :
    encodeProtobufField 1 2 (.str "é") = some [10, 2, 195, 169] ∧
    decodeProtobufField [10, 2, 195, 169] 0 ≠
      ⟨some 1, some 2, some (.str "é"), 4⟩ := by
  constructor
  · decide
  · decide

/-- C2 (amended): for wire types 0 and 2 and every field number (so in
particular 1, 15 and 180) the encoded field decodes from position 0 back to
`(fn, wt, wire value, total encoded length)`, where the wire value of an
`int` or `bytes` input is the input itself and the wire value of a `str`
input is its UTF-8 byte encoding (not the original `str`). -/
theorem c2_field_roundtrip_amended : ∀ fn : Nat,
    (∀ n : Nat, ∃ e, encodeProtobufField fn 0 (.int n) = some e ∧
        decodeProtobufField e 0 = ⟨some fn, some 0, some (.int n), e.length⟩) ∧
    (∀ bs : List Nat, ∃ e, encodeProtobufField fn 2 (.bytes bs) = some e ∧
        decodeProtobufField e 0 = ⟨some fn, some 2, some (.bytes bs), e.length⟩) ∧
    (∀ s : String, ∃ e, encodeProtobufField fn 2 (.str s) = some e ∧
        decodeProtobufField e 0 = ⟨some fn, some 2, some (.bytes (pyUtf8Encode s)), e.length⟩) := by
  intro fn
  refine ⟨fun n => ⟨encodeVarint ((fn <<< 3) ||| 0) ++ encodeVarint n, ?_, ?_⟩,
    fun bs => ⟨encodeVarint ((fn <<< 3) ||| 2) ++ encodeVarint bs.length ++ bs, ?_, ?_⟩,
    fun s => ⟨encodeVarint ((fn <<< 3) ||| 2) ++ encodeVarint (pyUtf8Encode s).length ++ pyUtf8Encode s, ?_, ?_⟩⟩
  · rw [encodeProtobufField]
    norm_num
  · exact decodeProtobufField_enc_wt0 fn n
  · rw [encodeProtobufField]
    norm_num
  · exact decodeProtobufField_enc_wt2 fn bs
  · rw [encodeProtobufField]
    norm_num
  · exact decodeProtobufField_enc_wt2 fn (pyUtf8Encode s)

/-! ### Framing detection -/

/-- The single-byte framing check shared by `decode_work_status`
(proto_utils.py lines 102–104) and `decode_error_code` (lines 166–168):
strip one leading byte exactly when `data[0] == len(data) - 1`.  Both
callers guard against the empty buffer first, where `headD` agrees with
`data[0]`. -/
def byteFrame (data : List Nat) : List Nat :=
  if data.headD 0 = data.length - 1 then data.drop 1 else data

/-- The framing check of `decode_clean_speed` (proto_utils.py lines
240–241): like `byteFrame` but additionally requiring `len(data) > 1`. -/
def csFrame (data : List Nat) : List Nat :=
  if data.headD 0 = data.length - 1 ∧ 1 < data.length then data.drop 1 else data

/-- The varint framing check shared verbatim by `decode_scene_list`
(proto_utils.py lines 434–437), `decode_dnd` (lines 526–529),
`decode_cleaning_statistics` (lines 613–616) and `decode_consumables`
(lines 681–684): decode a varint `L` at position 0 and strip the prefix
exactly when `0 < L == len(data) - pos_after`. -/
def varintFrame (data : List Nat) : List Nat :=
  let (ln, posAfter) := decodeVarint data 0
  if 0 < ln ∧ ln = data.length - posAfter then data.drop posAfter else data

/-- The framing step of `decode_clean_param` (proto_utils.py lines
736–741): decode a varint `L` at position 0 and slice out the `L` bytes
following it whenever they fit inside the buffer
(`pos_after_varint + length <= len(data)`), else use the whole buffer. -/
def cleanParamFrame (data : List Nat) : List Nat :=
  let (ln, posAfter) := decodeVarint data 0
  if posAfter + ln ≤ data.length then (data.drop posAfter).take ln else data

/-- Modelled from the spec (§4.3): decode a varint `L` at position 0; if
`L` equals the number of bytes remaining after that varint, discard the
varint and keep only the remaining bytes, else keep the whole buffer. -/
def specFraming (data : List Nat) : List Nat :=
  let (ln, posAfter) := decodeVarint data 0
  if ln = data.length - posAfter then data.drop posAfter else data

/-- C3 counterexample: the clean-param decoder's framing step does not
implement the spec heuristic: on the buffer `[1, 8, 1]` the varint L = 1
differs from the 2 remaining bytes, so the heuristic keeps the whole
buffer, while `decode_clean_param` slices out the single byte `[8]`. -/
theorem c3_framing_counterexample :
    cleanParamFrame [1, 8, 1] ≠ specFraming [1, 8, 1] ∧
    cleanParamFrame [1, 8, 1] = [8] ∧ specFraming [1, 8, 1] = [1, 8, 1] := by
  decide

set_option maxRecDepth 10000 in
/-- C3 (amended): only the scene-list, DND, statistics and consumables
decoders share one framing heuristic — the spec heuristic restricted to a
positive length prefix (`varintFrame`), which agrees with the spec form
whenever the decoded prefix is positive and otherwise never strips; the
work-status, error-code and clean-speed decoders use a single-byte length
check instead (the last also requiring at least two bytes), which misses
multi-byte varint prefixes such as `[128, 1]` before a 128-byte body; and
the clean-param decoder slices whenever the claimed length fits rather
than only when it matches exactly. -/
theorem c3_framing_amended :
    (∀ d : List Nat,
      (0 < (decodeVarint d 0).1 → varintFrame d = specFraming d) ∧
      ((decodeVarint d 0).1 = 0 → varintFrame d = d)) ∧
    (∀ d : List Nat, 1 < d.length → csFrame d = byteFrame d) ∧
    cleanParamFrame [1, 8, 1] = [8] ∧
    byteFrame (128 :: 1 :: List.replicate 128 0) = 128 :: 1 :: List.replicate 128 0 ∧
    specFraming (128 :: 1 :: List.replicate 128 0) = List.replicate 128 0 := by
  refine ⟨fun d => ⟨?_, ?_⟩, fun d h => ?_, by decide, by decide, by decide⟩
  · intro h
    rcases hdv : decodeVarint d 0 with ⟨ln, p⟩
    rw [hdv] at h
    simp only [varintFrame, specFraming, hdv]
    split_ifs with h1 h2 <;> first | rfl | omega
  · intro h
    rcases hdv : decodeVarint d 0 with ⟨ln, p⟩
    rw [hdv] at h
    simp only [varintFrame, hdv]
    rw [if_neg (by omega)]
  · simp only [csFrame, byteFrame]
    split_ifs <;> first | rfl | tauto

/-- C3 witness: the shared varint framing step agrees with the spec
heuristic on the framed buffer `[2, 9, 9]`. -/
theorem c3_framing_witness : varintFrame [2, 9, 9] = specFraming [2, 9, 9] :=
  (c3_framing_amended.1 [2, 9, 9]).1 (by decide)

/-! ### WorkStatus decoder -/

/-- `WORK_MODE_MAP` (proto_utils.py lines 25–36). -/
def workModeMap : Nat → Option String
  | 0 => some "auto"
  | 1 => some "select_room"
  | 2 => some "select_zone"
  | 3 => some "spot"
  | 4 => some "fast_mapping"
  | 5 => some "global_cruise"
  | 6 => some "zones_cruise"
  | 7 => some "point_cruise"
  | 8 => some "scene"
  | 9 => some "smart_follow"
  | _ => none

/-- `WORK_STATUS_STATE_MAP` (proto_utils.py lines 12–22). -/
def workStatusStateMap : Nat → Option String
  | 0 => some "standby"
  | 1 => some "sleep"
  | 2 => some "fault"
  | 3 => some "charging"
  | 4 => some "fast_mapping"
  | 5 => some "cleaning"
  | 6 => some "remote_ctrl"
  | 7 => some "go_home"
  | 8 => some "cruising"
  | _ => none

/-- One hexadecimal digit as Python prints it (lower case). -/
def hexDigit (n : Nat) : Char :=
  if n < 10 then Char.ofNat (48 + n) else Char.ofNat (87 + n)

/-- One byte inside Python's `repr` of a `bytes` object (`dq` true when the
repr uses double quotes). -/
def pyReprByte (dq : Bool) (b : Nat) : String :=
  if b = 92 then "\\\\"
  else if dq = false ∧ b = 39 then "\\" ++ String.singleton (Char.ofNat 39)
  else if dq = true ∧ b = 34 then "\\\""
  else if b = 9 then "\\t"
  else if b = 10 then "\\n"
  else if b = 13 then "\\r"
  else if 32 ≤ b ∧ b < 127 then String.singleton (Char.ofNat b)
  else "\\x" ++ String.singleton (hexDigit (b / 16 % 16)) ++ String.singleton (hexDigit (b % 16))

/-- Python's `repr` of a `bytes` object, as interpolated by an f-string
(single quotes unless the bytes contain a single quote and no double
quote). -/
def pyBytesRepr (bs : List Nat) : String :=
  if bs.contains 39 ∧ ¬ bs.contains 34 then
    "b\"" ++ String.join (bs.map (pyReprByte true)) ++ "\""
  else
    "b" ++ String.singleton (Char.ofNat 39) ++ String.join (bs.map (pyReprByte false))
      ++ String.singleton (Char.ofNat 39)

/-- `WORK_MODE_MAP.get(mode_value, f"mode_{mode_value}")` for the decoded
nested value (an `int` hits the table, anything else falls through to the
f-string default). -/
def modeString (v : PVal) : String :=
  match v with
  | .int n => (workModeMap n).getD ("mode_" ++ toString n)
  | .bytes bs => "mode_" ++ pyBytesRepr bs
  | .str s => "mode_" ++ s

/-- The result dictionary of `decode_work_status`: the error path returns
only the `state`/`mode` keys, which consumers read back with `.get`, so an
absent key and an explicit `None` are both modelled as `none`. -/
structure WorkStatus where
  state : String
  mode : String
  charging : Option Bool
  cleaning : Option Bool
  goHome : Option Bool
deriving DecidableEq

/-- The default/absent work status (proto_utils.py lines 100, 106–112,
148). -/
def wsDefault : WorkStatus := ⟨"unknown", "unknown", none, none, none⟩

/-- One iteration body of `decode_work_status`'s while loop (proto_utils.py
lines 121–142). -/
def wsUpdate (acc : WorkStatus) (f : DecodedField) : WorkStatus :=
  match f.fieldNum, f.wireType, f.value with
  | some 1, some 2, some (.bytes bs) =>
    if 2 ≤ bs.length then
      match (decodeProtobufField bs 0).value with
      | some v => { acc with mode := modeString v }
      | none => acc
    else acc
  | some 2, some 0, some (.int v) =>
    { acc with state := (workStatusStateMap v).getD ("state_" ++ toString v) }
  | some 3, some 2, _ => { acc with charging := some true }
  | some 6, some 2, _ => { acc with cleaning := some true }
  | some 8, some 2, _ => { acc with goHome := some true }
  | _, _, _ => acc

/-- The while loop of `decode_work_status` (proto_utils.py lines 114–142),
with fuel: each iteration advances the position by at least one byte
(`decodeProtobufField_pos_lt`), so fuel `data.length` suffices, and the
fuel-exhausted result equals the natural loop exit (both return the
accumulator). -/
def wsWalkAux : Nat → List Nat → Nat → WorkStatus → WorkStatus
  | 0, _, _, acc => acc
  | fuel + 1, data, pos, acc =>
    if pos < data.length then
      let f := decodeProtobufField data pos
      match f.fieldNum with
      | none => acc
      | some _ => wsWalkAux fuel data f.nextPos (wsUpdate acc f)
    else acc

/-- `decode_work_status(base64_value)` (proto_utils.py lines 83–148):
`none` input models a `base64.b64decode` failure (the `except` path, which
returns the state/mode defaults). -/
def decodeWorkStatus : Option (List Nat) → WorkStatus
  | none => wsDefault
  | some data =>
    if data.length = 0 then wsDefault
    else
      let d := byteFrame data
      wsWalkAux d.length d 0 wsDefault

/-- Modelled from the spec: the walk that stops ("caller treats the
message as done") as soon as a field's wire type is none of 0, 1, 2 or 5,
as §4.2 prescribes; compare `wsWalkAux`, which keeps walking. -/
def wsWalkStopAux : Nat → List Nat → Nat → WorkStatus → WorkStatus
  | 0, _, _, acc => acc
  | fuel + 1, data, pos, acc =>
    if pos < data.length then
      let f := decodeProtobufField data pos
      match f.fieldNum with
      | none => acc
      | some _ =>
        if f.wireType = some 0 ∨ f.wireType = some 1 ∨ f.wireType = some 2 ∨ f.wireType = some 5
        then wsWalkStopAux fuel data f.nextPos (wsUpdate acc f)
        else acc
    else acc

/-- C4 counterexample: on `[0x0B, 0x10, 0x05]` the first tag decodes to
field 1 with wire type 3; the real walk does not stop there — it continues
at the next byte and consumes the following state field (state becomes
"cleaning"), unlike the walk that treats the message as done at an unknown
wire type (which leaves the default record). -/
theorem c4_unknown_wiretype_counterexample :
    wsWalkAux 3 [11, 16, 5] 0 wsDefault ≠ wsWalkStopAux 3 [11, 16, 5] 0 wsDefault ∧
    (decodeWorkStatus (some [11, 16, 5])).state = "cleaning" := by
  constructor
  · decide
  · decide

/-- C4 (amended): for every buffer and position whose tag decodes to a wire
type other than 0, 1, 2 or 5, `decode_protobuf_field` returns the decoded
field number and wire type with value `None`, advancing the position only
past the tag varint; the caller's walk does not stop (its
`field_num is None` break can only fire at end of buffer, which the loop
guard already excludes), it continues from the byte after the tag. -/
theorem c4_unknown_wiretype_amended (data : List Nat) (pos : Nat)
    (h : pos < data.length)
    (h0 : (decodeVarint data pos).1 &&& 7 ≠ 0)
    (h1 : (decodeVarint data pos).1 &&& 7 ≠ 1)
    (h2 : (decodeVarint data pos).1 &&& 7 ≠ 2)
    (h5 : (decodeVarint data pos).1 &&& 7 ≠ 5) :
    decodeProtobufField data pos =
      ⟨some ((decodeVarint data pos).1 >>> 3), some ((decodeVarint data pos).1 &&& 7),
        none, (decodeVarint data pos).2⟩ := by
  rw [decodeProtobufField, if_neg (by omega)]
  rcases hdv : decodeVarint data pos with ⟨tag, p1⟩
  rw [hdv] at h0 h1 h2 h5
  simp only [hdv] at *
  rw [if_neg h0, if_neg h1, if_neg h2, if_neg h5]

/-- C4 witness: the single-byte buffer `[0x0B]` carries wire type 3; the
field decodes to `(1, 3, None, 1)`. -/
theorem c4_unknown_wiretype_witness :
    decodeProtobufField [11] 0 =
      ⟨some ((decodeVarint [11] 0).1 >>> 3), some ((decodeVarint [11] 0).1 &&& 7),
        none, (decodeVarint [11] 0).2⟩ :=
  c4_unknown_wiretype_amended [11] 0 (by decide) (by decide) (by decide) (by decide) (by decide)

/-! ### ErrorCode decoder -/

/-- The packed-varint inner loop of `decode_error_code` (proto_utils.py
lines 188–191 and 197–199), with fuel (`decode_varint` advances by at
least one byte while inside the buffer). -/
def packedVarintsAux : Nat → List Nat → Nat → List Nat
  | 0, _, _ => []
  | fuel + 1, value, pos =>
    if pos < value.length then
      let (v, pos') := decodeVarint value pos
      v :: packedVarintsAux fuel value pos'
    else []

/-- All varints packed in a length-delimited value. -/
def packedVarints (value : List Nat) : List Nat :=
  packedVarintsAux value.length value 0

/-- The result dictionary of `decode_error_code`. -/
structure ErrorReport where
  errors : List Nat
  warnings : List Nat
  errorText : String
deriving DecidableEq

/-- The default error report (proto_utils.py lines 164, 170–174, 214). -/
def ecDefault : ErrorReport := ⟨[], [], "none"⟩

/-- The while loop of `decode_error_code` (proto_utils.py lines 176–199),
accumulating the error and warning lists. -/
def ecWalkAux : Nat → List Nat → Nat → List Nat × List Nat → List Nat × List Nat
  | 0, _, _, acc => acc
  | fuel + 1, data, pos, acc =>
    if pos < data.length then
      let f := decodeProtobufField data pos
      match f.fieldNum with
      | none => acc
      | some _ =>
        let acc :=
          match f.fieldNum, f.wireType, f.value with
          | some 2, some 0, some (.int v) => (acc.1 ++ [v], acc.2)
          | some 2, some 2, some (.bytes bs) => (acc.1 ++ packedVarints bs, acc.2)
          | some 3, some 0, some (.int v) => (acc.1, acc.2 ++ [v])
          | some 3, some 2, some (.bytes bs) => (acc.1, acc.2 ++ packedVarints bs)
          | _, _, _ => acc
        ecWalkAux fuel data f.nextPos acc
    else acc

/-- `decode_error_code(base64_value)` (proto_utils.py lines 151–214);
`none` models the base64 exception path.  The error text is built at lines
202–208. -/
def decodeErrorCode : Option (List Nat) → ErrorReport
  | none => ecDefault
  | some data =>
    if data.length = 0 then ecDefault
    else
      let d := byteFrame data
      let (es, ws) := ecWalkAux d.length d 0 ([], [])
      ⟨es, ws,
        if es ≠ [] then "error_" ++ toString (es.headD 0)
        else if ws ≠ [] then "warning_" ++ toString (ws.headD 0)
        else "none"⟩

/-! ### Scene list decoder -/

/-- Strict UTF-8 decoding as Python's `bytes.decode("utf-8")` performs it:
rejects stray continuation bytes, overlong encodings, surrogates and code
points above U+10FFFF; `none` models `UnicodeDecodeError`. -/
def pyUtf8DecodeAux : List Nat → Option (List Char)
  | [] => some []
  | b :: rest =>
    if b < 0x80 then (pyUtf8DecodeAux rest).map fun cs => Char.ofNat b :: cs
    else if b < 0xC2 then none
    else if b < 0xE0 then
      match rest with
      | c1 :: rest2 =>
        if 0x80 ≤ c1 ∧ c1 < 0xC0 then
          (pyUtf8DecodeAux rest2).map fun cs => Char.ofNat ((b - 0xC0) * 64 + (c1 - 0x80)) :: cs
        else none
      | [] => none
    else if b < 0xF0 then
      match rest with
      | c1 :: c2 :: rest2 =>
        if (0x80 ≤ c1 ∧ c1 < 0xC0) ∧ (0x80 ≤ c2 ∧ c2 < 0xC0) then
          let code := (b - 0xE0) * 4096 + (c1 - 0x80) * 64 + (c2 - 0x80)
          if 0x800 ≤ code ∧ ¬ (0xD800 ≤ code ∧ code < 0xE000) then
            (pyUtf8DecodeAux rest2).map fun cs => Char.ofNat code :: cs
          else none
        else none
      | _ => none
    else if b < 0xF5 then
      match rest with
      | c1 :: c2 :: c3 :: rest2 =>
        if (0x80 ≤ c1 ∧ c1 < 0xC0) ∧ (0x80 ≤ c2 ∧ c2 < 0xC0) ∧ (0x80 ≤ c3 ∧ c3 < 0xC0) then
          let code := (b - 0xF0) * 262144 + (c1 - 0x80) * 4096 + (c2 - 0x80) * 64 + (c3 - 0x80)
          if 0x10000 ≤ code ∧ code < 0x110000 then
            (pyUtf8DecodeAux rest2).map fun cs => Char.ofNat code :: cs
          else none
        else none
      | _ => none
    else none

/-- `value.decode("utf-8")` returning `none` on `UnicodeDecodeError`. -/
def pyUtf8Decode (bs : List Nat) : Option String :=
  (pyUtf8DecodeAux bs).map fun cs => ⟨cs⟩

/-- One decoded scene entry. -/
structure Scene where
  sceneId : Nat
  name : String
  enabled : Bool
deriving DecidableEq

/-- The while loop of `_decode_single_scene` (proto_utils.py lines
462–478), threading `(scene_id, name, enabled)`. -/
def singleSceneWalkAux : Nat → List Nat → Nat → Option Nat × String × Bool → Option Nat × String × Bool
  | 0, _, _, acc => acc
  | fuel + 1, data, pos, acc =>
    if pos < data.length then
      let f := decodeProtobufField data pos
      match f.fieldNum with
      | none => acc
      | some _ =>
        let acc :=
          match f.fieldNum, f.wireType, f.value with
          | some 1, some 2, some (.bytes bs) =>
            let g := decodeProtobufField bs 0
            if g.fieldNum = some 1 ∧ g.wireType = some 0 then
              match g.value with
              | some (.int v) => (some v, acc.2.1, acc.2.2)
              | _ => acc
            else acc
          | some 3, some 0, some (.int v) => (acc.1, acc.2.1, v ≠ 0)
          | some 4, some 2, some (.bytes bs) => (acc.1, (pyUtf8Decode bs).getD "", acc.2.2)
          | _, _, _ => acc
        singleSceneWalkAux fuel data f.nextPos acc
    else acc

/-- `_decode_single_scene(data)` (proto_utils.py lines 456–482): a scene is
kept only when a scene id was seen and the name is non-empty. -/
def decodeSingleScene (data : List Nat) : Option Scene :=
  let acc := singleSceneWalkAux data.length data 0 (none, "", true)
  match acc.1 with
  | some i => if acc.2.1 ≠ "" then some ⟨i, acc.2.1, acc.2.2⟩ else none
  | none => none

/-- The while loop of `decode_scene_list` (proto_utils.py lines 441–448). -/
def sceneWalkAux : Nat → List Nat → Nat → List Scene → List Scene
  | 0, _, _, acc => acc
  | fuel + 1, data, pos, acc =>
    if pos < data.length then
      let f := decodeProtobufField data pos
      match f.fieldNum with
      | none => acc
      | some _ =>
        let acc :=
          match f.fieldNum, f.wireType, f.value with
          | some 4, some 2, some (.bytes bs) =>
            match decodeSingleScene bs with
            | some sc => acc ++ [sc]
            | none => acc
          | _, _, _ => acc
        sceneWalkAux fuel data f.nextPos acc
    else acc

/-- `decode_scene_list(base64_value)` (proto_utils.py lines 411–453);
`none` models the base64 exception path (and the non-string guard). -/
def decodeSceneList : Option (List Nat) → List Scene
  | none => []
  | some data =>
    if data.length < 2 then []
    else
      let d := varintFrame data
      sceneWalkAux d.length d 0 []

/-! ### DND decoder -/

/-- The result dictionary of `decode_dnd`.  The nested hour values are
stored verbatim from the inner field decode (`result["start_hour"] = vv`
with no wire-type check), so they are kept as raw decoded values
(`none` = Python `None`). -/
structure DndRecord where
  enabled : Bool
  startHour : Option PVal
  endHour : Option PVal
deriving DecidableEq

/-- The default DND record (proto_utils.py line 518). -/
def dndDefault : DndRecord := ⟨false, some (.int 22), some (.int 8)⟩

/-- Python's `vv != 0` on an arbitrary decoded value (`None != 0` and
`b"..." != 0` are both `True` in Python). -/
def pyNeZero : Option PVal → Bool
  | some (.int n) => n ≠ 0
  | some (.bytes _) => true
  | some (.str _) => true
  | none => true

/-- The inner while loop over the DND schedule message (proto_utils.py
lines 538–554). -/
def dndInnerAux : Nat → List Nat → Nat → DndRecord → DndRecord
  | 0, _, _, acc => acc
  | fuel + 1, value, pos, acc =>
    if pos < value.length then
      let f := decodeProtobufField value pos
      match f.fieldNum with
      | none => acc
      | some _ =>
        let acc :=
          match f.fieldNum, f.wireType, f.value with
          | some 1, some 2, some (.bytes v) =>
            let g := decodeProtobufField v 0
            if g.fieldNum = some 1 then { acc with enabled := pyNeZero g.value } else acc
          | some 2, some 2, some (.bytes v) =>
            let g := decodeProtobufField v 0
            if g.fieldNum = some 1 then { acc with startHour := g.value } else acc
          | some 3, some 2, some (.bytes v) =>
            let g := decodeProtobufField v 0
            if g.fieldNum = some 1 then { acc with endHour := g.value } else acc
          | _, _, _ => acc
        dndInnerAux fuel value f.nextPos acc
    else acc

/-- The outer while loop of `decode_dnd` (proto_utils.py lines 531–554). -/
def dndWalkAux : Nat → List Nat → Nat → DndRecord → DndRecord
  | 0, _, _, acc => acc
  | fuel + 1, data, pos, acc =>
    if pos < data.length then
      let f := decodeProtobufField data pos
      match f.fieldNum with
      | none => acc
      | some _ =>
        let acc :=
          match f.fieldNum, f.wireType, f.value with
          | some 2, some 2, some (.bytes v) => dndInnerAux v.length v 0 acc
          | _, _, _ => acc
        dndWalkAux fuel data f.nextPos acc
    else acc

/-- `decode_dnd(base64_value)` (proto_utils.py lines 506–559); `none`
models the base64 exception path (and the non-string guard). -/
def decodeDnd : Option (List Nat) → DndRecord
  | none => dndDefault
  | some data =>
    if data.length < 2 then dndDefault
    else
      let d := varintFrame data
      dndWalkAux d.length d 0 dndDefault

/-! ### Cleaning statistics decoder -/

/-- The result dictionary of `decode_cleaning_statistics`. -/
structure CleaningStats where
  totalCleans : Nat
  totalArea : Nat
  totalTimeMin : Nat
  totalSessions : Nat
deriving DecidableEq

/-- The default statistics record (proto_utils.py lines 601–606). -/
def statsDefault : CleaningStats := ⟨0, 0, 0, 0⟩

/-- The inner loop over the outer field-1 message (proto_utils.py lines
624–630): only `f == 1 and wt == 0` sets `total_cleans`. -/
def statsInner1Aux : Nat → List Nat → Nat → CleaningStats → CleaningStats
  | 0, _, _, acc => acc
  | fuel + 1, value, pos, acc =>
    if pos < value.length then
      let f := decodeProtobufField value pos
      match f.fieldNum with
      | none => acc
      | some _ =>
        let acc :=
          match f.fieldNum, f.wireType, f.value with
          | some 1, some 0, some (.int v) => { acc with totalCleans := v }
          | _, _, _ => acc
        statsInner1Aux fuel value f.nextPos acc
    else acc

/-- The inner loop over the outer field-2 message (proto_utils.py lines
632–642): fields 1/2/3 set area, time and sessions. -/
def statsInner2Aux : Nat → List Nat → Nat → CleaningStats → CleaningStats
  | 0, _, _, acc => acc
  | fuel + 1, value, pos, acc =>
    if pos < value.length then
      let f := decodeProtobufField value pos
      match f.fieldNum with
      | none => acc
      | some _ =>
        let acc :=
          match f.fieldNum, f.wireType, f.value with
          | some 1, some 0, some (.int v) => { acc with totalArea := v }
          | some 2, some 0, some (.int v) => { acc with totalTimeMin := v }
          | some 3, some 0, some (.int v) => { acc with totalSessions := v }
          | _, _, _ => acc
        statsInner2Aux fuel value f.nextPos acc
    else acc

/-- The outer while loop of `decode_cleaning_statistics` (proto_utils.py
lines 618–642). -/
def statsWalkAux : Nat → List Nat → Nat → CleaningStats → CleaningStats
  | 0, _, _, acc => acc
  | fuel + 1, data, pos, acc =>
    if pos < data.length then
      let f := decodeProtobufField data pos
      match f.fieldNum with
      | none => acc
      | some _ =>
        let acc :=
          match f.fieldNum, f.wireType, f.value with
          | some 1, some 2, some (.bytes v) => statsInner1Aux v.length v 0 acc
          | some 2, some 2, some (.bytes v) => statsInner2Aux v.length v 0 acc
          | _, _, _ => acc
        statsWalkAux fuel data f.nextPos acc
    else acc

/-- `decode_cleaning_statistics(base64_value)` (proto_utils.py lines
590–647); `none` models the base64 exception path. -/
def decodeCleaningStatistics : Option (List Nat) → CleaningStats
  | none => statsDefault
  | some data =>
    if data.length < 2 then statsDefault
    else
      let d := varintFrame data
      statsWalkAux d.length d 0 statsDefault

/-! ### Consumables decoder -/

/-- The result dictionary of `decode_consumables`; each consumable name
maps to the stored Python value (`result[...] = vv` has no wire-type check
on the nested value, so raw decoded values are kept; `none` = Python
`None`). -/
structure Consumables where
  rollingBrush : Option PVal
  sideBrush : Option PVal
  filter : Option PVal
  mopPad : Option PVal
  otherBrush : Option PVal
  sensor : Option PVal
  runtimeHours : Option PVal
deriving DecidableEq

/-- The default consumables record (proto_utils.py line 674): all usage
hours zero. -/
def consDefault : Consumables :=
  ⟨some (.int 0), some (.int 0), some (.int 0), some (.int 0),
   some (.int 0), some (.int 0), some (.int 0)⟩

/-- `result[field_map[f]] = v` for the fixed field table (proto_utils.py
lines 665–673). -/
def consSet (acc : Consumables) (f : Nat) (v : Option PVal) : Consumables :=
  match f with
  | 1 => { acc with rollingBrush := v }
  | 2 => { acc with sideBrush := v }
  | 3 => { acc with filter := v }
  | 4 => { acc with mopPad := v }
  | 5 => { acc with otherBrush := v }
  | 6 => { acc with sensor := v }
  | 7 => { acc with runtimeHours := v }
  | _ => acc

/-- The inner loop over the outer field-1 message (proto_utils.py lines
693–705). -/
def consInnerAux : Nat → List Nat → Nat → Consumables → Consumables
  | 0, _, _, acc => acc
  | fuel + 1, value, pos, acc =>
    if pos < value.length then
      let f := decodeProtobufField value pos
      match f.fieldNum with
      | none => acc
      | some fn =>
        let acc :=
          if 1 ≤ fn ∧ fn ≤ 7 then
            match f.wireType, f.value with
            | some 2, some (.bytes v) =>
              let g := decodeProtobufField v 0
              if g.fieldNum = some 1 then consSet acc fn g.value else acc
            | some 0, some (.int v) => consSet acc fn (some (.int v))
            | _, _ => acc
          else acc
        consInnerAux fuel value f.nextPos acc
    else acc

/-- The outer while loop of `decode_consumables` (proto_utils.py lines
686–706): the `break` at line 706 stops the walk after the first
field-1/wire-type-2 entry. -/
def consWalkAux : Nat → List Nat → Nat → Consumables → Consumables
  | 0, _, _, acc => acc
  | fuel + 1, data, pos, acc =>
    if pos < data.length then
      let f := decodeProtobufField data pos
      match f.fieldNum with
      | none => acc
      | some _ =>
        match f.fieldNum, f.wireType, f.value with
        | some 1, some 2, some (.bytes v) => consInnerAux v.length v 0 acc
        | _, _, _ => consWalkAux fuel data f.nextPos acc
    else acc

/-- `decode_consumables(base64_value)` (proto_utils.py lines 650–711);
`none` models the base64 exception path. -/
def decodeConsumables : Option (List Nat) → Consumables
  | none => consDefault
  | some data =>
    if data.length < 2 then consDefault
    else
      let d := varintFrame data
      consWalkAux d.length d 0 consDefault

/-! ### Clean-param decoder -/

/-- The result dictionary of `decode_clean_param`: outer `none` = key
absent; `clean_extent`/`mop_level` store the raw nested decoded value
(`result["clean_extent"] = vi` has no wire-type check, inner `none` =
Python `None`). -/
structure CleanParamRec where
  cleanType : Option Nat
  cleanExtent : Option (Option PVal)
  mopLevel : Option (Option PVal)
  cleanTimes : Option Nat
deriving DecidableEq

/-- The inner loop over the CleanParam message (proto_utils.py lines
749–765). -/
def cpInnerAux : Nat → List Nat → Nat → CleanParamRec → CleanParamRec
  | 0, _, _, acc => acc
  | fuel + 1, value, pos, acc =>
    if pos < value.length then
      let f := decodeProtobufField value pos
      match f.fieldNum with
      | none => acc
      | some _ =>
        let acc :=
          match f.fieldNum, f.wireType, f.value with
          | some 1, some 0, some (.int v) => { acc with cleanType := some v }
          | some 3, some 2, some (.bytes v) =>
            let g := decodeProtobufField v 0
            if g.fieldNum = some 1 then { acc with cleanExtent := some g.value } else acc
          | some 4, some 2, some (.bytes v) =>
            let g := decodeProtobufField v 0
            if g.fieldNum = some 1 then { acc with mopLevel := some g.value } else acc
          | some 7, some 0, some (.int v) => { acc with cleanTimes := some v }
          | _, _, _ => acc
        cpInnerAux fuel value f.nextPos acc
    else acc

/-- The outer while loop of `decode_clean_param` (proto_utils.py lines
743–766): the `break` at line 766 stops after the first field-1
wire-type-2 entry. -/
def cpWalkAux : Nat → List Nat → Nat → CleanParamRec → CleanParamRec
  | 0, _, _, acc => acc
  | fuel + 1, message, pos, acc =>
    if pos < message.length then
      let f := decodeProtobufField message pos
      match f.fieldNum with
      | none => acc
      | some _ =>
        match f.fieldNum, f.wireType, f.value with
        | some 1, some 2, some (.bytes v) => cpInnerAux v.length v 0 acc
        | _, _, _ => cpWalkAux fuel message f.nextPos acc
    else acc

/-- `decode_clean_param(base64_value)` (proto_utils.py lines 721–769):
returns `none` for the empty dictionary (`return result if result else
None`); `none` input models the base64 exception path and the non-string
guard. -/
def decodeCleanParam : Option (List Nat) → Option CleanParamRec
  | none => none
  | some data =>
    if data.length < 2 then none
    else
      let message := cleanParamFrame data
      let r := cpWalkAux message.length message 0 ⟨none, none, none, none⟩
      if r = ⟨none, none, none, none⟩ then none else some r

/-! ### Clean-speed decoder -/

/-- The `speed_map` of `decode_clean_speed` (proto_utils.py lines
219–224). -/
def speedMap : Nat → Option String
  | 0 => some "quiet"
  | 1 => some "standard"
  | 2 => some "turbo"
  | 3 => some "max"
  | _ => none

/-- The while loop of `decode_clean_speed`'s base64 branch (proto_utils.py
lines 243–249): return the mapped speed at the first field-1 wire-type-0
entry, `none` when the walk ends without one (this loop has no
`field_num is None` break).  Wire type 0 always carries an `int`; the
other-value arm models `speed_map.get` falling back to "standard" on a
non-`int` key. -/
def csWalkAux : Nat → List Nat → Nat → Option String
  | 0, _, _ => none
  | fuel + 1, data, pos =>
    if pos < data.length then
      let f := decodeProtobufField data pos
      if f.fieldNum = some 1 ∧ f.wireType = some 0 then
        some (match f.value with
          | some (.int v) => (speedMap v).getD "standard"
          | _ => "standard")
      else csWalkAux fuel data f.nextPos
    else none

/-- Python's `str.lower()` modelled on ASCII characters: lower-case each
character of the string. -/
def pyLower (s : String) : String := ⟨s.data.map Char.toLower⟩

/-- The dynamically typed argument of `decode_clean_speed`: a DPS value
may arrive as an `int`, a `str` — carried together with the result of
`base64.b64decode` on it (`none` = the decode raises) — or any other
type. -/
inductive CleanSpeedInput where
  | int (n : Nat)
  | str (s : String) (b64 : Option (List Nat))
  | other
deriving DecidableEq

/-- `decode_clean_speed(value)` (proto_utils.py lines 217–259): table
lookup for ints; for strings, a single digit character indexes the table,
otherwise a string containing "=" or longer than 4 characters is base64
decoded (an exception is absorbed by the `except: pass` at lines 253–254)
and, when at least one byte results, framed with the single-byte check
(`csFrame`, lines 240–241) and walked for a field-1 varint, falling back
to the first byte; every remaining path returns the lower-cased raw
string, and non-int/non-str values return "standard".  The digit test and
`str.lower()` are modelled on ASCII characters
(`Char.isDigit`/`pyLower`). -/
def decodeCleanSpeed : CleanSpeedInput → String
  | .int n => (speedMap n).getD "standard"
  | .str s b64 =>
    if s.length = 1 ∧ (s.data.headD 'x').isDigit then
      (speedMap ((s.data.headD 'x').toNat - 48)).getD "standard"
    else if s.data.contains '=' ∨ s.length > 4 then
      match b64 with
      | none => pyLower s
      | some data =>
        if 1 ≤ data.length then
          let d := csFrame data
          match csWalkAux d.length d 0 with
          | some r => r
          | none => (speedMap (d.headD 0)).getD "standard"
        else pyLower s
    else pyLower s
  | .other => "standard"

/-- C5 counterexample: a truncated DND buffer — its schedule declares a
field-3 value of length 5 with no bytes left, so the last tag points past
the buffer end (`nextPos` 11 beyond the 6 schedule bytes) — does not
return the documented DND default: the start hour decoded before the
anomaly is kept, giving `{enabled: false, start_hour: 7, end_hour: 8}`. -/
theorem c5_defaults_counterexample :
    decodeDnd (some [18, 6, 18, 2, 8, 7, 26, 5]) ≠ dndDefault ∧
    decodeDnd (some [18, 6, 18, 2, 8, 7, 26, 5]) = ⟨false, some (.int 7), some (.int 8)⟩ ∧
    (decodeProtobufField [18, 2, 8, 7, 26, 5] 4).nextPos = 11 := by
  refine ⟨by decide, by decide, by decide⟩

/-- C5 (amended): all eight domain decoders are total and absorb
failures.  The seven byte-message decoders, when base64 decoding raises
(input `none`) or the buffer fails the decoder's degenerate-size guard,
return exactly their documented defaults (full WorkStatus default record,
empty error/warning lists with error text "none", empty scene list, DND
`{false, 22, 8}`, all-zero statistics and consumables, absent
clean-param); the clean-speed decoder likewise absorbs its base64 failure
and returns its documented fallbacks ("standard" for out-of-range ints
and non-int/non-str values, the lower-cased raw string when the base64
attempt fails or is skipped, the table entry when a framed field-1 varint
or first byte resolves).  But a structural anomaly that occurs mid-walk
is absorbed by Python's clamping slices instead, and fields decoded
before it are kept, so the result can be a partial record rather than the
default. -/
theorem c5_defaults_amended :
    decodeWorkStatus none = wsDefault ∧
    decodeWorkStatus (some []) = wsDefault ∧
    decodeErrorCode none = ecDefault ∧
    decodeErrorCode (some []) = ecDefault ∧
    decodeSceneList none = [] ∧
    decodeSceneList (some [0]) = [] ∧
    decodeDnd none = dndDefault ∧
    decodeDnd (some [0]) = dndDefault ∧
    decodeCleaningStatistics none = statsDefault ∧
    decodeCleaningStatistics (some [0]) = statsDefault ∧
    decodeConsumables none = consDefault ∧
    decodeConsumables (some [0]) = consDefault ∧
    decodeCleanParam none = none ∧
    decodeCleanParam (some [0]) = none ∧
    decodeCleanSpeed (.int 99) = "standard" ∧
    decodeCleanSpeed (.str "Hello!" none) = "hello!" ∧
    decodeCleanSpeed (.str "AQ==" (some [1])) = "standard" ∧
    decodeCleanSpeed (.str "CAI=" (some [8, 2])) = "turbo" ∧
    decodeCleanSpeed .other = "standard" ∧
    decodeDnd (some [18, 6, 18, 2, 8, 7, 26, 5]) = ⟨false, some (.int 7), some (.int 8)⟩ := by
  decide

/-! ### Generic field walk and framing idempotence -/

/-- The shared shape of every decoder's top-level while loop
(`while pos < len(data): field_num, wire_type, value, pos =
decode_protobuf_field(data, pos); if field_num is None: break`), recording
the decoded `(field_number, wire_type, value)` sequence. -/
def walkFieldsAux : Nat → List Nat → Nat → List (Option Nat × Option Nat × Option PVal)
  | 0, _, _ => []
  | fuel + 1, data, pos =>
    if pos < data.length then
      let f := decodeProtobufField data pos
      match f.fieldNum with
      | none => []
      | some _ => (f.fieldNum, f.wireType, f.value) :: walkFieldsAux fuel data f.nextPos
    else []

/-- The field sequence a decoder walks over a buffer. -/
def walkFields (data : List Nat) : List (Option Nat × Option Nat × Option PVal) :=
  walkFieldsAux data.length data 0

/-- A nine-byte field sequence (field 1 varint 5, then field 1 with a
five-byte blob) whose first byte, 8, equals its remaining length after one
byte — so the stripped body itself passes the framing test again. -/
def c6Body : List Nat := [8, 5, 10, 5, 1, 2, 3, 4, 5]

/-- C6 counterexample: for the body `c6Body`, the message
`encode_varint(len(body)) + body` decodes to different field sequences
depending on whether the framing-detection step runs once (yielding the
two real fields) or twice (the second application strips the leading `8`
and misparses the rest). -/
theorem c6_framing_idem_counterexample :
    walkFields (varintFrame (encodeVarint c6Body.length ++ c6Body)) ≠
      walkFields (varintFrame (varintFrame (encodeVarint c6Body.length ++ c6Body))) := by
  decide

/-- C6 (amended): framing idempotence holds exactly for bodies that do not
themselves look framed: for every non-empty body on which the framing step
is the identity (its leading varint is zero or differs from the remaining
byte count), the message `encode_varint(len(body)) + body` decodes to the
same field sequence whether framing detection is applied once or twice;
a body that itself passes the framing test (such as `c6Body`) is stripped
a second time, which can change the decoded sequence. -/
theorem c6_framing_idem_amended (body : List Nat) (hne : body ≠ [])
    (hframe : varintFrame body = body) :
    walkFields (varintFrame (encodeVarint body.length ++ body)) =
      walkFields (varintFrame (varintFrame (encodeVarint body.length ++ body))) := by
  have h1 : varintFrame (encodeVarint body.length ++ body) = body := by
    simp only [varintFrame, decodeVarint_encode body.length body]
    rw [if_pos ⟨List.length_pos.mpr hne, by rw [List.length_append]; omega⟩, List.drop_left]
  rw [h1, hframe]

/-- C6 witness: the two-byte body `[8, 1]` does not look framed, and its
framed message decodes identically under one or two framing passes. -/
theorem c6_framing_idem_witness :
    walkFields (varintFrame (encodeVarint ([8, 1] : List Nat).length ++ [8, 1])) =
      walkFields (varintFrame (varintFrame (encodeVarint ([8, 1] : List Nat).length ++ [8, 1]))) :=
  c6_framing_idem_amended [8, 1] (by decide) (by decide)

/-! ### Adaptive map parser (camera.py) -/

/-- Modelled from the spec: `decompress_lz4` (camera.py lines 44–56) calls
the external `lz4.block` library, which is not part of this repository's
sources; the code's `ImportError` branch returns `b""` and the spec states
"decompression library unavailable is not a hard failure — it degrades
gracefully to raw-bytes-as-pixels", so the decompressor is modelled as
that library-unavailable branch. -/
def decompressLz4 (data : List Nat) (originalSize : Nat) : List Nat :=
  match data, originalSize with
  | _, _ => []

/-- The flat pixel list of `parse_map_pixels` (camera.py lines 64–71):
each byte yields four 2-bit codes, low bits first. -/
def pixelsOfBytes (data : List Nat) : List Nat :=
  data.flatMap fun b =>
    [b &&& 0x03, (b >>> 2) &&& 0x03, (b >>> 4) &&& 0x03, (b >>> 6) &&& 0x03]

/-- `parse_map_pixels(data, width, height)` (camera.py lines 59–85):
row-major reshape, indices beyond the unpacked stream default to 0. -/
def parseMapPixels (data : List Nat) (width height : Nat) : List (List Nat) :=
  let pixels := pixelsOfBytes data
  (List.range height).map fun y =>
    (List.range width).map fun x =>
      let idx := y * width + x
      if idx < pixels.length then pixels.getD idx 0 else 0

/-- The optional length-prefix strip at each `_collect` entry (camera.py
lines 277–280): strip when `0 < ln <= len(msg) - pos_after`, slicing
`msg[pos_after : pos_after + ln]`. -/
def collectFrame (msg : List Nat) : List Nat :=
  if 2 ≤ msg.length then
    let (ln, posAfter) := decodeVarint msg 0
    if 0 < ln ∧ ln ≤ msg.length - posAfter then (msg.drop posAfter).take ln else msg
  else msg

/-- The field walk of `_collect` (camera.py lines 281–295), returning the
varints and blobs in traversal order: wire-type-0 values are collected;
length-delimited blobs longer than 50 bytes are recursed into (the
`except` fallback that would keep the blob cannot fire, since the walk is
total); blobs of at most 50 bytes are collected as they are. -/
def collectRunAux : Nat → List Nat → Nat → List Nat × List (List Nat)
  | 0, _, _ => ([], [])
  | fuel + 1, msg, pos =>
    if pos < msg.length then
      let f := decodeProtobufField msg pos
      match f.fieldNum with
      | none => ([], [])
      | some _ =>
        let rest := collectRunAux fuel msg f.nextPos
        match f.wireType, f.value with
        | some 0, some (.int v) => (v :: rest.1, rest.2)
        | some 2, some (.bytes bs) =>
          if 50 < bs.length then
            let sub := collectRunAux fuel (collectFrame bs) 0
            (sub.1 ++ rest.1, sub.2 ++ rest.2)
          else (rest.1, bs :: rest.2)
        | _, _ => rest
    else ([], [])

/-- `_collect(data)` as called at the top of `_parse_map_protobuf`
(camera.py line 298). -/
def collectEntry (data : List Nat) : List Nat × List (List Nat) :=
  collectRunAux data.length (collectFrame data) 0

/-- Modelled from the spec (§4.6 step 1): like `collectRunAux`, but a blob
longer than 50 bytes whose recursion yields nothing is kept as an opaque
candidate ("falling back to treating it as opaque if recursion yields
nothing"). -/
def collectSpecRunAux : Nat → List Nat → Nat → List Nat × List (List Nat)
  | 0, _, _ => ([], [])
  | fuel + 1, msg, pos =>
    if pos < msg.length then
      let f := decodeProtobufField msg pos
      match f.fieldNum with
      | none => ([], [])
      | some _ =>
        let rest := collectSpecRunAux fuel msg f.nextPos
        match f.wireType, f.value with
        | some 0, some (.int v) => (v :: rest.1, rest.2)
        | some 2, some (.bytes bs) =>
          if 50 < bs.length then
            let sub := collectSpecRunAux fuel (collectFrame bs) 0
            if sub = ([], []) then (rest.1, bs :: rest.2)
            else (sub.1 ++ rest.1, sub.2 ++ rest.2)
          else (rest.1, bs :: rest.2)
        | _, _ => rest
    else ([], [])

/-- The spec-modelled collection, from the same entry point. -/
def collectSpecEntry (data : List Nat) : List Nat × List (List Nat) :=
  collectSpecRunAux data.length (collectFrame data) 0

/-- One insertion step of a stable descending sort. -/
def insertDesc (a : Nat) : List Nat → List Nat
  | [] => [a]
  | b :: rest => if b < a then a :: b :: rest else b :: insertDesc a rest

/-- Python's `sorted(..., reverse=True)` on a list of naturals: the same
multiset in weakly decreasing order (insertion sort, kernel-computable). -/
def sortDesc (l : List Nat) : List Nat :=
  l.foldl (fun acc a => insertDesc a acc) []

/-- Python's `max(blobs, key=len)`: the first blob of maximal length. -/
def maxByLen (blobs : List (List Nat)) : List Nat :=
  blobs.foldl (fun best b => if b.length > best.length then b else best) (blobs.headD [])

/-- The candidate target sizes of the decompression loop (camera.py line
308). -/
def lz4TrySizes (numPixels : Nat) : List Nat :=
  [numPixels, 512 * 512, 256 * 256, 1024 * 1024]

/-- The decompression-attempt loop of `_parse_map_protobuf` (camera.py
lines 308–315): accept the first candidate whose guarded decompression
returns exactly the expected byte count, else keep the raw bytes. -/
def lz4Select : List Nat → List Nat → List Nat
  | [], pixelBytes => pixelBytes
  | expected :: rest, pixelBytes =>
    let expectedBytes := (expected + 3) / 4
    if 0 < expectedBytes ∧ expectedBytes ≤ 1024 * 1024 ∧ pixelBytes.length / 2 ≤ expectedBytes then
      let d := decompressLz4 pixelBytes expectedBytes
      if d ≠ [] ∧ d.length = expectedBytes then d
      else lz4Select rest pixelBytes
    else lz4Select rest pixelBytes

/-- The map payload produced by `_parse_map_protobuf` (the `robot_pos` and
`dock_pos` entries of the returned dictionary are always `None`). -/
structure MapPayload where
  width : Nat
  height : Nat
  pixels : List (List Nat)
deriving DecidableEq

/-- `_parse_map_protobuf(data)` (camera.py lines 260–341): collect varints
and blobs, fail if no blobs, pick the largest blob, try block
decompression, infer dimensions from in-range varints (top two if their
product is within a factor of two of the implied pixel count, a single
candidate as square side, else the integer square root of the pixel count
with fallback 256), and unpack the 2-bit pixels. -/
def parseMapProtobuf (data : List Nat) : Option MapPayload :=
  let collected := collectEntry data
  let blobs := collected.2
  if blobs = [] then none
  else
    let pixelBytes0 := maxByLen blobs
    let numPixels0 := pixelBytes0.length * 4
    let pixelBytes := lz4Select (lz4TrySizes numPixels0) pixelBytes0
    let numPixels := pixelBytes.length * 4
    let candidates :=
      sortDesc (collected.1.filter fun v => decide (8 ≤ v) && decide (v ≤ 2048))
    let dims :=
      match candidates with
      | w :: h :: _ =>
        if w * h > numPixels * 2 ∨ w * h < numPixels / 2 then
          let s := if Nat.sqrt numPixels = 0 then 256 else Nat.sqrt numPixels
          (s, s)
        else (w, h)
      | [c] => (c, c)
      | [] =>
        let s := if Nat.sqrt numPixels = 0 then 256 else Nat.sqrt numPixels
        (s, s)
    let dims := if dims.1 = 0 ∨ dims.2 = 0 then (256, 256) else dims
    some ⟨dims.1, dims.2, parseMapPixels pixelBytes dims.1 dims.2⟩

/-- Every blob the collection phase keeps has at most 50 bytes: larger
blobs are always recursed into instead, and the exception fallback that
would keep them never fires. -/
theorem collectRunAux_blob_le : ∀ (fuel : Nat) (msg : List Nat) (pos : Nat) (b : List Nat),
    b ∈ (collectRunAux fuel msg pos).2 → b.length ≤ 50 := by
  intro fuel
  induction fuel with
  | zero => intro msg pos b hb; simp [collectRunAux] at hb
  | succ fuel ih =>
    intro msg pos b hb
    rw [collectRunAux] at hb
    by_cases hp : pos < msg.length
    · rw [if_pos hp] at hb
      simp only [] at hb
      split at hb
      · simp at hb
      · split at hb
        · exact ih msg _ b hb
        · split at hb
          · rcases List.mem_append.mp hb with h1 | h2
            · exact ih _ _ b h1
            · exact ih msg _ b h2
          · rcases List.mem_cons.mp hb with rfl | h2
            · omega
            · exact ih msg _ b h2
        · exact ih msg _ b hb
    · rw [if_neg hp] at hb
      simp at hb

/-- A buffer whose single oversized blob holds 51 bytes of wire-type-3
noise: the recursion into it collects nothing, so the blob is dropped. -/
def c7Buffer : List Nat := 53 :: ([10, 51] ++ List.replicate 51 3)

set_option maxRecDepth 10000 in
/-- C7 counterexample: on `c7Buffer` the 51-byte blob is recursed into,
the recursion yields nothing, and — contrary to the claim — the blob is
not kept as an opaque pixel-data candidate: the code's collection drops it
(only an exception, which the total walk never raises, would keep it),
whereas the spec-modelled collection keeps it; the parse therefore returns
absent. -/
theorem c7_collect_counterexample :
    collectEntry c7Buffer = ([], []) ∧
    collectSpecEntry c7Buffer = ([], [List.replicate 51 3]) ∧
    parseMapProtobuf c7Buffer = none := by
  refine ⟨by decide, by decide, by decide⟩

set_option maxRecDepth 10000 in
/-- C7 (amended): every length-delimited blob longer than 50 bytes is
recursed into as a candidate sub-message, but it would be kept as an
opaque candidate only if the recursion raised — which the total field-walk
never does — so a blob whose recursion yields nothing is dropped entirely
(witness `c7Buffer`); and whenever no blobs at all were collected, the
parse returns absent. -/
theorem c7_collect_amended :
    (∀ data : List Nat, (collectEntry data).2 = [] → parseMapProtobuf data = none) ∧
    collectEntry c7Buffer = ([], []) ∧
    parseMapProtobuf c7Buffer = none := by
  refine ⟨?_, by decide, by decide⟩
  intro data h
  simp [parseMapProtobuf, h]

/-- C7 witness: the parse of `c7Buffer` is absent because its collection
kept no blobs. -/
theorem c7_collect_witness : parseMapProtobuf c7Buffer = none :=
  c7_collect_amended.1 c7Buffer (by decide)

/-- A buffer carrying one varint 16 and one 64-byte opaque blob (64 bytes
of wire-type-3 noise). -/
def c8Buffer1 : List Nat := 68 :: ([8, 16, 18, 64] ++ List.replicate 64 3)

/-- A buffer carrying varints 20 and 10 and a 50-byte pixel blob. -/
def c8Buffer2 : List Nat := 56 :: ([8, 20, 8, 10, 18, 50] ++ List.replicate 50 0)

set_option maxRecDepth 10000 in
/-- C8 counterexample: a synthetic buffer containing one varint 16 plus
one 64-byte blob does not fall back to 16×16 square-root inference: the
64-byte blob exceeds the 50-byte recursion threshold, its recursion
collects nothing and drops it, so no blob is ever collected and the parse
returns absent instead of a 16×16 map. -/
theorem c8_dims_counterexample :
    collectEntry c8Buffer1 = ([16], []) ∧ parseMapProtobuf c8Buffer1 = none := by
  refine ⟨by decide, by decide⟩

set_option maxRecDepth 10000 in
/-- C8 (amended): a collected blob never exceeds 50 bytes (oversized blobs
are recursed into and, when the recursion yields nothing, dropped), so no
collection ever yields a 64-byte pixel blob and the one-varint-16 scenario
parses to absent (`c8Buffer1`); the two-varint scenario holds as claimed:
a buffer whose collection yields in-range varints 20 and 10 and a 50-byte
blob (matching pixel count 200) produces exactly width 20 and height
10 (`c8Buffer2`). -/
theorem c8_dims_amended :
    (∀ (data : List Nat) (b : List Nat), b ∈ (collectEntry data).2 → b.length ≤ 50) ∧
    parseMapProtobuf c8Buffer1 = none ∧
    (parseMapProtobuf c8Buffer2).map (fun p => (p.width, p.height)) = some (20, 10) := by
  refine ⟨fun data b hb => collectRunAux_blob_le _ _ _ b hb, by decide, by decide⟩

set_option maxRecDepth 10000 in
/-- C8 witness: the 50-byte blob collected from `c8Buffer2` respects the
50-byte bound. -/
theorem c8_dims_witness :
    List.replicate 50 0 ∈ (collectEntry c8Buffer2).2 ∧
    (List.replicate 50 0 : List Nat).length ≤ 50 :=
  ⟨by decide, c8_dims_amended.1 c8Buffer2 (List.replicate 50 0) (by decide)⟩

/-- C9: decoding a field at any in-range position strictly advances the
position (the tag varint consumes at least one byte), so every decoder's
top-level and nested field-walk loop terminates in finitely many steps. -/
theorem c9_walk_progress : ∀ (data : List Nat) (pos : Nat), pos < data.length →
    pos < (decodeProtobufField data pos).nextPos :=
  fun data pos h => decodeProtobufField_pos_lt data pos h

/-- C9 witness: on the one-byte buffer `[0]`, decoding from position 0
advances the position. -/
theorem c9_walk_progress_witness : 0 < (decodeProtobufField [0] 0).nextPos :=
  c9_walk_progress [0] 0 (by decide)

/-! ### Pixel grid invariants -/

theorem pixelsOfBytes_length (data : List Nat) :
    (pixelsOfBytes data).length = 4 * data.length := by
  induction data with
  | nil => simp [pixelsOfBytes]
  | cons b rest ih =>
    simp only [pixelsOfBytes, List.flatMap_cons, List.length_append, List.length_cons] at ih ⊢
    simp at ih ⊢
    omega

theorem pixelsOfBytes_lt (data : List Nat) : ∀ p ∈ pixelsOfBytes data, p < 4 := by
  induction data with
  | nil => simp [pixelsOfBytes]
  | cons b rest ih =>
    intro p hp
    have h4 : ∀ x : Nat, x &&& 3 < 4 := fun x => Nat.lt_succ_of_le Nat.and_le_right
    simp only [pixelsOfBytes, List.flatMap_cons, List.mem_append, List.mem_cons,
      List.not_mem_nil, or_false] at hp
    simp only [pixelsOfBytes] at ih
    rcases hp with (rfl | rfl | rfl | rfl) | h
    · exact h4 b
    · exact h4 _
    · exact h4 _
    · exact h4 _
    · exact ih p h

/-- C10: for every byte string and all width and height (in particular all
positive ones), `parse_map_pixels` returns exactly `height` rows of
exactly `width` entries, every entry is a 2-bit code below 4 (bits taken
low-to-high within each byte), and every grid position at or beyond the
unpacked pixel stream (of length `4 * len(data)`) is filled with code 0. -/
theorem c10_pixels : ∀ (data : List Nat) (width height : Nat),
    (parseMapPixels data width height).length = height ∧
    (∀ row ∈ parseMapPixels data width height, row.length = width ∧ ∀ p ∈ row, p < 4) ∧
    (∀ y x : Nat, y < height → x < width → 4 * data.length ≤ y * width + x →
      ((parseMapPixels data width height).getD y []).getD x 1 = 0) := by
  intro data width height
  refine ⟨by simp [parseMapPixels], ?_, ?_⟩
  · intro row hrow
    simp only [parseMapPixels, List.mem_map, List.mem_range] at hrow
    obtain ⟨y, hy, rfl⟩ := hrow
    refine ⟨by simp, ?_⟩
    intro p hp
    simp only [List.mem_map, List.mem_range] at hp
    obtain ⟨x, hx, rfl⟩ := hp
    split
    · next hidx =>
      have hmem : (pixelsOfBytes data).getD (y * width + x) 0 ∈ pixelsOfBytes data := by
        rw [List.getD_eq_getElem _ _ hidx]
        exact List.getElem_mem hidx
      exact pixelsOfBytes_lt data _ hmem
    · norm_num
  · intro y x hy hx hbeyond
    have hrow : (parseMapPixels data width height).getD y [] =
        (List.range width).map fun x =>
          if y * width + x < (pixelsOfBytes data).length then
            (pixelsOfBytes data).getD (y * width + x) 0
          else 0 := by
      rw [List.getD_eq_getElem _ _ (by simp [parseMapPixels]; exact hy)]
      simp [parseMapPixels]
    rw [hrow]
    rw [List.getD_eq_getElem _ _ (by simp; exact hx)]
    simp only [List.getElem_map, List.getElem_range]
    rw [if_neg (by rw [pixelsOfBytes_length]; omega)]

/-- C10 witness: for the byte `0b11100100` in a 3×2 grid, the grid has two
rows, and position (1, 2) — index 5, beyond the 4 unpacked pixels — is 0. -/
theorem c10_pixels_witness :
    (parseMapPixels [228] 3 2).length = 2 ∧
    ((parseMapPixels [228] 3 2).getD 1 []).getD 2 1 = 0 :=
  ⟨(c10_pixels [228] 3 2).1, (c10_pixels [228] 3 2).2.2 1 2 (by decide) (by decide) (by decide)⟩
